import Mathlib

/-!
Verification development for the UCI option registry of
Musketeer-Stockfish (`src/ucioption.cpp`).

The C++ code is shallowly embedded as executable Lean definitions:

* `OptE` models `UCI::Option` (fields `type`, `defaultValue`,
  `currentValue`, `min`, `max`, `comboValues`, `on_change`, `idx`).
  The change hook is an opaque external collaborator, so only its
  presence is recorded (`on_change : Bool`); every invocation of the
  hook is made observable by collecting the option states passed to it
  (`AssignResult.hookCalls`).
* `assign` models `Option::operator=`.  The C++ reject condition is a
  single short-circuit disjunction whose `spin` disjunct calls
  `std::stof`, which throws (and, uncaught, aborts the process) on text
  with no numeric prefix; fallibility is made explicit with
  `Except Unit`, `.error ()` standing for the abort.
* `stofM` models `std::stof` (C-locale `strtof`) on arbitrary text:
  the full numeric grammar (decimal numerals with `e`-exponents,
  `0x` hexadecimal floats with `p`-exponents, case-insensitive
  `inf`/`infinity` and `nan`), correct rounding of the exact parsed
  value to IEEE binary32 under the default round-to-nearest-even mode
  (`roundFVal`), the successful `inf`/`nan` returns, and the throwing
  cases — no conversion (`std::invalid_argument`) and
  overflow/underflow (`std::out_of_range`, the glibc `ERANGE`
  conditions).  A returned finite float is kept as its exact rational
  value, so the `int` bound comparisons of `operator=` (bounds are
  below 2^24, hence exactly convertible) and the `int(...)`
  truncations of the serializer are exact.
* `Registry` models the `OptionsMap` (a `std::map` ordered by
  `CaseInsensitiveLess`) together with the static `insert_order`
  counter of `Option::operator<<`.
* `renderU` / `renderX` / `printOptionsE` model
  `operator<<(std::ostream&, const OptionsMap&)`.
-/

/-- C `tolower` on the ASCII range (the only characters this program
compares). -/
def tolow (c : Char) : Char :=
  if 'A' ≤ c ∧ c ≤ 'Z' then Char.ofNat (c.toNat + 32) else c

/-- `std::lexicographical_compare` over `tolower`-folded characters:
the body of `CaseInsensitiveLess::operator()`. -/
def ciLess : List Char → List Char → Bool
  | _, [] => false
  | [], _ :: _ => true
  | c1 :: s1, c2 :: s2 =>
    if tolow c1 < tolow c2 then true
    else if tolow c2 < tolow c1 then false
    else ciLess s1 s2

/-- `CaseInsensitiveLess` on strings. -/
def ciLessStr (s1 s2 : String) : Bool := ciLess s1.data s2.data

/-- The equivalence induced by `CaseInsensitiveLess`
(`!less(a,b) && !less(b,a)`), as used by `std::map` for key identity
and by `Option::operator==`. -/
def ciEqStr (a b : String) : Bool := !ciLessStr a b && !ciLessStr b a

/-- Case-folded image of a string. -/
def lowerStr (s : String) : String := ⟨s.data.map tolow⟩

/-- C `isspace` (default locale): the whitespace `std::stof` skips. -/
def cSpace (c : Char) : Bool :=
  c == ' ' || c == '\t' || c == '\n' || c == '\x0b' || c == '\x0c' || c == '\r'

/-- Value of a decimal digit string, most significant first. -/
def digitsVal (l : List Char) : Nat :=
  l.foldl (fun n c => 10 * n + (c.toNat - '0'.toNat)) 0

/-- Hexadecimal digit value (`0-9a-fA-F`). -/
def hexVal (c : Char) : Nat :=
  if c.isDigit then c.toNat - '0'.toNat else (tolow c).toNat - 'a'.toNat + 10

/-- Hexadecimal digit test. -/
def isHexDigit (c : Char) : Bool :=
  c.isDigit || ('a' ≤ tolow c && tolow c ≤ 'f')

/-- Value of a hexadecimal digit string, most significant first. -/
def hexDigitsVal (l : List Char) : Nat :=
  l.foldl (fun n c => 16 * n + hexVal c) 0

/-- Case-insensitive prefix test against a lowercase pattern. -/
def startsWithCI (cs : List Char) (pat : List Char) : Bool :=
  decide ((cs.take pat.length).map tolow = pat)

/-- The `float` a successful `std::stof` call returns.  A finite value
is stored as its exact rational value `num / den` (every `float` is
exactly `±s·2^k`, so an exact pair always exists); infinities and NaN
are the IEEE specials (`strtof` parses `inf`/`nan` and returns them
without error). -/
inductive FVal : Type where
  | val (num : Int) (den : Nat)
  | posInf
  | negInf
  | nan
deriving Repr, DecidableEq

/-- Round-half-to-even of `num / den` (`den > 0`): the IEEE default
rounding applied to the infinitely precise significand. -/
def roundHalfEven (num den : Nat) : Nat :=
  let t := num / den
  let r := num % den
  if 2 * r < den then t
  else if den < 2 * r then t + 1
  else if t % 2 = 0 then t else t + 1

/-- `⌊log2 n⌋` by fueled halving: structural recursion on the fuel, so
concrete instances reduce cheaply in the kernel.  Correct whenever
`fuel ≥ ⌊log2 n⌋`; the parser supplies a bound computed from digit
counts. -/
def natLog2F : Nat → Nat → Nat
  | 0, _ => 0
  | f + 1, n => if 2 ≤ n then natLog2F f (n / 2) + 1 else 0

/-- `2^e ≤ n/d`, for an arbitrary integer `e`. -/
def pow2le (n d : Nat) (e : Int) : Bool :=
  if 0 ≤ e then d * 2 ^ e.toNat ≤ n else d ≤ n * 2 ^ (-e).toNat

/-- `⌊log2 (n/d)⌋` for `n, d ≥ 1`: the floored logs of `n` and `d`
bracket it to two candidates, decided by `pow2le`.  `fuel` must bound
`⌊log2 n⌋` and `⌊log2 d⌋`. -/
def floorLog2Q (fuel n d : Nat) : Int :=
  let e0 : Int := (natLog2F fuel n : Int) - (natLog2F fuel d : Int)
  if pow2le n d e0 then e0 else e0 - 1

/-- Round-half-even of `(n/d)·2^shift` as an integer. -/
def scaledRound (n d : Nat) (shift : Int) : Nat :=
  if 0 ≤ shift then roundHalfEven (n * 2 ^ shift.toNat) d
  else roundHalfEven n (d * 2 ^ (-shift).toNat)

/-- Whether `(n/d)·2^shift` is already an integer (the rounding in
`scaledRound` is exact). -/
def scaledExact (n d : Nat) (shift : Int) : Bool :=
  if 0 ≤ shift then (n * 2 ^ shift.toNat) % d = 0
  else n % (d * 2 ^ (-shift).toNat) = 0

/-- The finite float `±s·2^e` as an exact signed rational. -/
def signedVal (neg : Bool) (s : Nat) (e : Int) : FVal :=
  let nd : Nat × Nat := if 0 ≤ e then (s * 2 ^ e.toNat, 1) else (s, 2 ^ (-e).toNat)
  .val (if neg then -(nd.1 : Int) else (nd.1 : Int)) nd.2

/-- Correctly rounded conversion of the exact nonnegative rational
`n / d` (sign `neg`) to IEEE binary32 under the default
round-to-nearest-even mode, with `strtof`/`std::stof` error behavior:
`none` when the value overflows (rounds to a magnitude `≥ 2^128`,
`errno = ERANGE`, `std::stof` throws `std::out_of_range`) or
underflows (the result is tiny — below the smallest normal `2^-126`
after rounding — and inexact, the glibc `ERANGE` condition; an exactly
representable subnormal is returned without error).  `fuel` is any
upper bound for `⌊log2 n⌋` and `⌊log2 d⌋` (see `floorLog2Q`). -/
def roundFVal (fuel : Nat) (neg : Bool) (n d : Nat) : Option FVal :=
  if n = 0 then some (.val 0 1)
  else
    let e := floorLog2Q fuel n d
    if e < -126 then
      let s := scaledRound n d 149
      if 2 ^ 23 ≤ s then some (signedVal neg (2 ^ 23) (-149))
      else if scaledExact n d 149 then some (signedVal neg s (-149))
      else none
    else
      let s := scaledRound n d (23 - e)
      let s2 := if s = 2 ^ 24 then 2 ^ 23 else s
      let e2 := if s = 2 ^ 24 then e + 1 else e
      if 127 < e2 then none
      else some (signedVal neg s2 (e2 - 23))

/-- `m · b^k` as a fraction of naturals. -/
def scalePow (b m : Nat) (k : Int) : Nat × Nat :=
  if 0 ≤ k then (m * b ^ k.toNat, 1) else (m, b ^ (-k).toNat)

/-- Model of `std::stof` (C-locale `strtof`): skip `isspace`
whitespace and an optional sign, then parse the longest valid prefix —
case-insensitive `inf`/`infinity` (infinity, no error),
case-insensitive `nan`(…) (NaN, no error), a `0x`/`0X` hexadecimal
float (hex digits with optional period, optional `p`-exponent in
decimal; a bare `0x` without hex digits falls back to the subject
`"0"`), or a decimal numeral (digits with optional period, optional
`e`-exponent; an exponent letter not followed by a digit is not part
of the subject).  Trailing characters are ignored, exactly as `stof`
ignores them.  The exact parsed value is then correctly rounded to
binary32 by `roundFVal`.  `none` means `std::stof` throws — no
conversion (`std::invalid_argument`) or overflow/underflow
(`std::out_of_range`) — which, uncaught in this program, aborts it. -/
def stofM (s : String) : Option FVal :=
  let cs0 := s.data.dropWhile cSpace
  let neg := match cs0 with
    | '-' :: _ => true
    | _ => false
  let cs := match cs0 with
    | '+' :: t => t
    | '-' :: t => t
    | t => t
  if startsWithCI cs ['i', 'n', 'f'] then some (if neg then .negInf else .posInf)
  else if startsWithCI cs ['n', 'a', 'n'] then some .nan
  else if startsWithCI cs ['0', 'x'] then
    let h := cs.drop 2
    let h1 := h.takeWhile isHexDigit
    let hrest := h.dropWhile isHexDigit
    let h2 := match hrest with
      | '.' :: t => t.takeWhile isHexDigit
      | _ => []
    if h1.length + h2.length = 0 then some (.val 0 1)
    else
      let prest := match hrest with
        | '.' :: t => t.dropWhile isHexDigit
        | t => t
      let pdigs := match prest with
        | 'p' :: '+' :: t => t.takeWhile Char.isDigit
        | 'P' :: '+' :: t => t.takeWhile Char.isDigit
        | 'p' :: '-' :: t => t.takeWhile Char.isDigit
        | 'P' :: '-' :: t => t.takeWhile Char.isDigit
        | 'p' :: t => t.takeWhile Char.isDigit
        | 'P' :: t => t.takeWhile Char.isDigit
        | _ => []
      let pneg := match prest with
        | 'p' :: '-' :: _ => true
        | 'P' :: '-' :: _ => true
        | _ => false
      let pexp : Int := if pdigs = [] then 0
        else if pneg then -(digitsVal pdigs : Int) else (digitsVal pdigs : Int)
      let nd := scalePow 2 (hexDigitsVal (h1 ++ h2)) (pexp - 4 * h2.length)
      roundFVal (4 * (h1.length + h2.length) + digitsVal pdigs + 4 * h2.length + 64)
        neg nd.1 nd.2
  else
    let ip := cs.takeWhile Char.isDigit
    let rest := cs.dropWhile Char.isDigit
    let fp := match rest with
      | '.' :: t => t.takeWhile Char.isDigit
      | _ => []
    if ip.length + fp.length = 0 then none
    else
      let erest := match rest with
        | '.' :: t => t.dropWhile Char.isDigit
        | t => t
      let edigs := match erest with
        | 'e' :: '+' :: t => t.takeWhile Char.isDigit
        | 'E' :: '+' :: t => t.takeWhile Char.isDigit
        | 'e' :: '-' :: t => t.takeWhile Char.isDigit
        | 'E' :: '-' :: t => t.takeWhile Char.isDigit
        | 'e' :: t => t.takeWhile Char.isDigit
        | 'E' :: t => t.takeWhile Char.isDigit
        | _ => []
      let eneg := match erest with
        | 'e' :: '-' :: _ => true
        | 'E' :: '-' :: _ => true
        | _ => false
      let dexp : Int := (if edigs = [] then 0
        else if eneg then -(digitsVal edigs : Int) else (digitsVal edigs : Int)) - fp.length
      let nd := scalePow 10 (digitsVal (ip ++ fp)) dexp
      roundFVal (4 * (ip.length + fp.length) + 4 * (digitsVal edigs + fp.length) + 64)
        neg nd.1 nd.2

/-- `stof(v) < min`: `float` comparison of the parsed value with the
converted `int` bound.  Every bound this program uses has magnitude at
most 131072 < 2^24, so the int-to-float conversion is exact and the
comparison is the exact rational one; comparisons against NaN are
false. -/
def stofLtInt (x : FVal) (m : Int) : Bool :=
  match x with
  | .val num den => num < m * (den : Int)
  | .negInf => true
  | .posInf => false
  | .nan => false

/-- `stof(v) > max`, same conventions as `stofLtInt`. -/
def intLtStof (m : Int) (x : FVal) : Bool :=
  match x with
  | .val num den => m * (den : Int) < num
  | .negInf => false
  | .posInf => true
  | .nan => false

/-- C++ `int(<float>)`: truncation toward zero.  The non-finite arm is
undefined behavior in C++; it is unreachable here — the serializer only
truncates spin defaults, which `std::to_string(double)` produced as
finite decimal numerals — and no theorem depends on the value chosen
for it. -/
def stofTrunc (x : FVal) : Int :=
  match x with
  | .val num den =>
    if 0 ≤ num then ((num.natAbs / den : Nat) : Int)
    else -((num.natAbs / den : Nat) : Int)
  | _ => 0

/-- `UCI::Option`.  `on_change` records only whether a hook is
attached; `idx` is the registration index set by `Option::operator<<`. -/
structure OptE where
  type : String := ""
  defaultValue : String := ""
  currentValue : String := ""
  min : Int := 0
  max : Int := 0
  comboValues : List String := []
  on_change : Bool := false
  idx : Nat := 0
deriving Repr, DecidableEq

/-- Result of `Option::operator=`: the option after the call, plus the
option states passed to `on_change` (in order of invocation). -/
structure AssignResult where
  opt : OptE
  hookCalls : List OptE
deriving Repr, DecidableEq

/-- The reject condition of `Option::operator=`, exactly as written in
the source:
`(type != "button" && v.empty()) || (type == "check" && v != "true" && v != "false") || (type == "combo" && find(...) == end) || (type == "spin" && (stof(v) < min || stof(v) > max))`.
`spinOut` gives the last disjunct the value it has whenever `stof`
returns (see `assignCond` for the throwing case). -/
def spinOut (o : OptE) (v : String) : Bool :=
  match stofM v with
  | none => false
  | some x => stofLtInt x o.min || intLtStof o.max x

/-- See `spinOut`. -/
def rejectCond (o : OptE) (v : String) : Bool :=
  (o.type != "button" && v == "")
  || (o.type == "check" && v != "true" && v != "false")
  || (o.type == "combo" && !(decide (v ∈ o.comboValues)))
  || (o.type == "spin" && spinOut o v)

/-- Evaluation of the reject condition with C++ short-circuiting made
explicit: `stof` is reached only when `type == "spin"` and every
earlier disjunct is false, and throwing there aborts (`.error ()`). -/
def assignCond (o : OptE) (v : String) : Except Unit Bool :=
  if o.type != "button" && v == "" then .ok true
  else if o.type == "check" && v != "true" && v != "false" then .ok true
  else if o.type == "combo" && !(decide (v ∈ o.comboValues)) then .ok true
  else if o.type == "spin" then
    match stofM v with
    | none => .error ()
    | some x => .ok (stofLtInt x o.min || intLtStof o.max x)
  else .ok false

/-- The option state after an accepted assignment
(`if (type != "button") currentValue = v;`). -/
def acceptState (o : OptE) (v : String) : OptE :=
  if o.type != "button" then { o with currentValue := v } else o

/-- Result of an accepted assignment: the updated state, and the hook
invoked once with that state when present
(`if (on_change) on_change(*this);`). -/
def acceptResult (o : OptE) (v : String) : AssignResult :=
  { opt := acceptState o v,
    hookCalls := if o.on_change then [acceptState o v] else [] }

instance exceptDecEq {ε α : Type} [DecidableEq ε] [DecidableEq α] :
    DecidableEq (Except ε α) := fun a b => by
  cases a <;> cases b
  case error.error e f => exact decidable_of_iff (e = f) (by simp)
  case error.ok e x => exact isFalse (by simp)
  case ok.error x e => exact isFalse (by simp)
  case ok.ok x y => exact decidable_of_iff (x = y) (by simp)

/-- `Option::operator=`. -/
def assign (o : OptE) (v : String) : Except Unit AssignResult := do
  let c ← assignCond o v
  if c then return { opt := o, hookCalls := [] }
  else return acceptResult o v

/-- `Option::operator==(const char*)`: case-insensitive equality of
`currentValue` with the literal, via two negated comparator calls. -/
def opEq (o : OptE) (s : String) : Bool :=
  !ciLessStr o.currentValue s && !ciLessStr s o.currentValue

/-- Hypothesis under which `std::stof` does not throw during an
assign: whenever the `spin` disjunct is actually reached
(`type == "spin"` and the value is nonempty), `stof` returns a float
(`stofM` is `some`) — i.e. the text has a numeric prefix, `inf` or
`nan`, and does not overflow/underflow.  `(stofM v).isSome = false`
is exactly the throwing (aborting) case, claim C8. -/
def spinParseOk (o : OptE) (v : String) : Prop :=
  o.type = "spin" → v ≠ "" → (stofM v).isSome = true

/-- `Option::Option(const char*, OnChange)` — a `string` option. -/
def mkStringOpt (v : String) (f : Bool) : OptE :=
  { type := "string", defaultValue := v, currentValue := v, on_change := f }

/-- `Option::Option(const char*, const std::vector<std::string>&, OnChange)` — a `combo` option. -/
def mkComboOpt (v : String) (combo : List String) (f : Bool) : OptE :=
  { type := "combo", defaultValue := v, currentValue := v,
    comboValues := combo, on_change := f }

/-- `Option::Option(bool, OnChange)` — a `check` option. -/
def mkCheckOpt (v : Bool) (f : Bool) : OptE :=
  { type := "check", defaultValue := if v then "true" else "false",
    currentValue := if v then "true" else "false", on_change := f }

/-- `Option::Option(OnChange)` — a `button` option. -/
def mkButtonOpt (f : Bool) : OptE :=
  { type := "button", on_change := f }

/-- `std::to_string(double)` for the integral values `init()` passes
(`"%f"` formatting: six zero decimals). -/
def intToDoubleString (v : Int) : String := toString v ++ ".000000"

/-- `Option::Option(double, int, int, OnChange)` — a `spin` option. -/
def mkSpinOpt (v minv maxv : Int) (f : Bool) : OptE :=
  { type := "spin", defaultValue := intToDoubleString v,
    currentValue := intToDoubleString v, min := minv, max := maxv,
    on_change := f }

/-- The `OptionsMap` (`std::map<string, Option, CaseInsensitiveLess>`)
together with the static `insert_order` counter of
`Option::operator<<`.  `entries` is kept in the map's iteration order:
ascending under `CaseInsensitiveLess`. -/
structure Registry where
  entries : List (String × OptE) := []
  insert_order : Nat := 0
deriving Repr, DecidableEq

/-- Ordered-map insertion: `om[name]` creates the entry at its sorted
position if no `CaseInsensitiveLess`-equivalent key exists, otherwise
keeps the stored key and overwrites the mapped option. -/
def mapInsert : List (String × OptE) → String → OptE → List (String × OptE)
  | [], name, o => [(name, o)]
  | (n', o') :: rest, name, o =>
    if ciLessStr name n' then (name, o) :: (n', o') :: rest
    else if ciLessStr n' name then (n', o') :: mapInsert rest name o
    else (n', o) :: rest

/-- `om[name] << option`: `Option::operator<<` copies the option and
stamps it with `insert_order++`. -/
def declare (st : Registry) (name : String) (o : OptE) : Registry :=
  { entries := mapInsert st.entries name { o with idx := st.insert_order },
    insert_order := st.insert_order + 1 }

/-- A sequence of declare calls, first to last. -/
def declareList (st : Registry) (ds : List (String × OptE)) : Registry :=
  ds.foldl (fun s p => declare s p.1 p.2) st

/-- `om.find(name)` / read side of `om[name]`: the entry whose key is
`CaseInsensitiveLess`-equivalent to `name`. -/
def lookupCI (st : Registry) (name : String) : Option OptE :=
  match st.entries.find? (fun e => ciEqStr e.1 name) with
  | some e => some e.2
  | none => none

/-- `Options["Protocol"] == "xboard"`, the serializer's grammar switch
(the `none` arm is the value the release build computes for a
default-constructed entry, whose `currentValue` is empty). -/
def isXboard (st : Registry) : Bool :=
  match st.entries.find? (fun e => ciEqStr e.1 "Protocol") with
  | some e => opEq e.2 "xboard"
  | none => false

/-- Primary grammar, stream state after
`os << "\noption name " << it.first << " type " << o.type`. -/
def uStage1 (n : String) (o : OptE) : String :=
  "\noption name " ++ n ++ " type " ++ o.type

/-- Stream state after the `" default " << o.defaultValue` append for
string/check/combo. -/
def uStage2 (n : String) (o : OptE) : String :=
  if o.type == "string" || o.type == "check" || o.type == "combo"
  then uStage1 n o ++ " default " ++ o.defaultValue
  else uStage1 n o

/-- Stream state after the combo `" var " << value` loop. -/
def uStage3 (n : String) (o : OptE) : String :=
  if o.type == "combo"
  then uStage2 n o ++ String.join (o.comboValues.map (fun value => " var " ++ value))
  else uStage2 n o

/-- One entry of the primary (`option name ...`) grammar, exactly as
the `else` branch of `operator<<(std::ostream&, const OptionsMap&)`
streams it; `.error ()` is `stof` throwing on the stored default. -/
def renderU (n : String) (o : OptE) : Except Unit String :=
  if o.type == "spin" then
    match stofM o.defaultValue with
    | none => .error ()
    | some x => .ok (uStage3 n o ++ " default " ++ toString (stofTrunc x)
                        ++ " min " ++ toString o.min ++ " max " ++ toString o.max)
  else .ok (uStage3 n o)

/-- Alternate grammar, stream state after
`os << "\nfeature option=\"" << it.first << " -" << o.type`. -/
def xStage1 (n : String) (o : OptE) : String :=
  "\nfeature option=\x22" ++ n ++ " -" ++ o.type

/-- Stream state after the default-value append of the alternate
grammar (raw text for string/combo, `1`/`0` for check). -/
def xStage2 (n : String) (o : OptE) : String :=
  if o.type == "string" || o.type == "combo" then xStage1 n o ++ " " ++ o.defaultValue
  else if o.type == "check"
  then xStage1 n o ++ " " ++ (if o.defaultValue == "true" then "1" else "0")
  else xStage1 n o

/-- Stream state after the combo `" /// " << value` loop over
non-default values. -/
def xStage3 (n : String) (o : OptE) : String :=
  if o.type == "combo"
  then xStage2 n o ++ String.join ((o.comboValues.filter
         (fun value => value != o.defaultValue)).map
         (fun value => " /// " ++ value))
  else xStage2 n o

/-- One entry of the alternate (`feature option="..."`) grammar, from
the `xboard` branch of the same serializer. -/
def renderX (n : String) (o : OptE) : Except Unit String :=
  if o.type == "spin" then
    match stofM o.defaultValue with
    | none => .error ()
    | some x => .ok (xStage3 n o ++ " " ++ toString (stofTrunc x) ++ " " ++ toString o.min
                        ++ " " ++ toString o.max ++ "\x22")
  else .ok (xStage3 n o ++ "\x22")

/-- Grammar dispatch of the serializer. -/
def renderEntry (xb : Bool) (n : String) (o : OptE) : Except Unit String :=
  if xb then renderX n o else renderU n o

/-- The inner-loop test `it.second.idx == idx && it.first != "Protocol"`. -/
def serPred (i : Nat) (e : String × OptE) : Bool :=
  e.2.idx == i && e.1 != "Protocol"

/-- What the serializer appends for one value of the outer index `idx`:
the first map entry passing `serPred`, rendered; nothing if no entry
passes. -/
def emitAt (xb : Bool) (entries : List (String × OptE)) (i : Nat) : Except Unit String :=
  match entries.find? (serPred i) with
  | none => .ok ""
  | some (n, o) => renderEntry xb n o

/-- Sequential concatenation of the per-index emissions; the first
abort (a thrown `stof`) propagates. -/
def joinParts : List (Except Unit String) → Except Unit String
  | [] => .ok ""
  | e :: t => do
    let s ← e
    let rest ← joinParts t
    .ok (s ++ rest)

/-- `operator<<(std::ostream&, const OptionsMap&)`: outer loop over
`idx = 0 .. om.size()-1`.  At the call sites of the program `om` is the
global `Options`, the same object the grammar switch reads, so the
switch is taken from `st` itself. -/
def printOptionsE (st : Registry) : Except Unit String :=
  joinParts ((List.range st.entries.length).map (emitAt (isXboard st) st.entries))

/-- Serialization in declaration order, skipping `"Protocol"`: the
order the spec promises for `Enumerate()`/serialization.  Stated from
the spec's words to be compared with `printOptionsE`. -/
def printDeclOrder (xb : Bool) (ds : List (String × OptE)) : Except Unit String :=
  joinParts (ds.map
    (fun p => if p.1 = "Protocol" then .ok "" else renderEntry xb p.1 p.2))

/-- The declaration list stamped with its registration indices,
starting at `c`: what a sequence of declares adds to the map. -/
def enumIdx (c : Nat) : List (String × OptE) → List (String × OptE)
  | [] => []
  | (n, o) :: t => (n, { o with idx := c }) :: enumIdx (c + 1) t

/-- `MaxHashMB` (64-bit build; `Is64Bit` comes from `types.h`, outside
the supplied source, and no claim depends on this bound). -/
def maxHashMB : Int := 131072

/-- The declare calls of `UCI::init(OptionsMap&)`, in source order.
A `true` hook flag marks the options constructed with an `on_*`
callback. -/
def initOptions : List (String × OptE) :=
  [ ("Protocol",              mkComboOpt "uci" ["uci", "xboard"] false),
    ("Debug Log File",        mkStringOpt "" true),
    ("Contempt",              mkSpinOpt 21 (-100) 100 false),
    ("Analysis Contempt",     mkComboOpt "Both" ["Both", "Off", "White", "Black"] false),
    ("Threads",               mkSpinOpt 1 1 512 true),
    ("Hash",                  mkSpinOpt 16 1 maxHashMB true),
    ("Clear Hash",            mkButtonOpt true),
    ("Ponder",                mkCheckOpt false false),
    ("MultiPV",               mkSpinOpt 1 1 500 false),
    ("Skill Level",           mkSpinOpt 20 0 20 false),
    ("Move Overhead",         mkSpinOpt 30 0 5000 false),
    ("Minimum Thinking Time", mkSpinOpt 20 0 5000 false),
    ("Slow Mover",            mkSpinOpt 84 10 1000 false),
    ("nodestime",             mkSpinOpt 0 0 10000 false),
    ("UCI_Variant",           mkComboOpt "musketeer" ["musketeer"] true),
    ("UCI_Chess960",          mkCheckOpt false false),
    ("UCI_AnalyseMode",       mkCheckOpt false false),
    ("SyzygyPath",            mkStringOpt "<empty>" true),
    ("SyzygyProbeDepth",      mkSpinOpt 1 1 100 false),
    ("Syzygy50MoveRule",      mkCheckOpt true false),
    ("SyzygyProbeLimit",      mkSpinOpt 6 0 6 false),
    ("CannonValueMg",         mkSpinOpt 1710 710 2710 true),
    ("CannonValueEg",         mkSpinOpt 2239 1239 3239 true),
    ("LeopardValueMg",        mkSpinOpt 1648 648 2648 true),
    ("LeopardValueEg",        mkSpinOpt 2014 1014 3014 true),
    ("ArchbishopValueMg",     mkSpinOpt 2036 1036 3036 true),
    ("ArchbishopValueEg",     mkSpinOpt 2202 1202 3202 true),
    ("ChancellorValueMg",     mkSpinOpt 2251 1251 3251 true),
    ("ChancellorValueEg",     mkSpinOpt 2344 1344 3344 true),
    ("SpiderValueMg",         mkSpinOpt 2321 1321 3321 true),
    ("SpiderValueEg",         mkSpinOpt 2718 1718 3718 true),
    ("DragonValueMg",         mkSpinOpt 3280 2280 4280 true),
    ("DragonValueEg",         mkSpinOpt 2769 1769 3769 true),
    ("UnicornValueMg",        mkSpinOpt 1584 584 2584 true),
    ("UnicornValueEg",        mkSpinOpt 1772 772 2772 true),
    ("HawkValueMg",           mkSpinOpt 1537 537 2537 true),
    ("HawkValueEg",           mkSpinOpt 1561 561 2561 true),
    ("ElephantValueMg",       mkSpinOpt 1770 770 2770 true),
    ("ElephantValueEg",       mkSpinOpt 2000 1000 3000 true),
    ("FortressValueMg",       mkSpinOpt 1956 956 2956 true),
    ("FortressValueEg",       mkSpinOpt 2100 1100 3100 true) ]

/-- The registry `UCI::init` builds in a fresh process
(`insert_order` starts at 0). -/
def initRegistry : Registry := declareList {} initOptions

/-! ### Basic lemmas about the assign path -/

/-- Under `spinParseOk` the short-circuit evaluation of the reject
condition returns normally, with the value of `rejectCond`. -/
theorem assignCond_eq (o : OptE) (v : String) (h : spinParseOk o v) :
    assignCond o v = .ok (rejectCond o v) := by
  unfold assignCond rejectCond
  by_cases h1 : (o.type != "button" && v == "") = true
  · simp [h1]
  · rw [Bool.not_eq_true] at h1
    by_cases h2 : (o.type == "check" && v != "true" && v != "false") = true
    · simp [h1, h2]
    · rw [Bool.not_eq_true] at h2
      by_cases h3 : (o.type == "combo" && !(decide (v ∈ o.comboValues))) = true
      · simp [h1, h2, h3]
      · rw [Bool.not_eq_true] at h3
        by_cases h4 : (o.type == "spin") = true
        · have hty : o.type = "spin" := by simpa using h4
          have hv : v ≠ "" := by
            intro hv
            rw [hty, hv] at h1
            simp at h1
          cases hst : stofM v with
          | none =>
            have := h hty hv
            rw [hst] at this
            simp at this
          | some x => simp [h1, h2, h3, h4, hst, spinOut]
        · rw [Bool.not_eq_true] at h4
          simp [h1, h2, h3, h4, spinOut]

/-- `Option::operator=` either takes the silent early return or the
accept path, according to `rejectCond`. -/
theorem assign_eq (o : OptE) (v : String) (h : spinParseOk o v) :
    assign o v =
      .ok (if rejectCond o v then { opt := o, hookCalls := [] } else acceptResult o v) := by
  unfold assign
  rw [assignCond_eq o v h]
  cases hr : rejectCond o v <;> simp [hr, Except.bind, Bind.bind, pure, Except.pure]

/-- The comparator-derived equivalence is equality of case-folded
spellings. -/
theorem ciEq_iff (a b : List Char) :
    (!ciLess a b && !ciLess b a) = true ↔ a.map tolow = b.map tolow := by
  induction a generalizing b with
  | nil => cases b <;> simp [ciLess]
  | cons c1 t1 ih =>
    cases b with
    | nil => simp [ciLess]
    | cons c2 t2 =>
      simp only [ciLess, List.map_cons]
      by_cases h1 : tolow c1 < tolow c2
      · simp [h1, ne_of_lt h1]
      · by_cases h2 : tolow c2 < tolow c1
        · simp [h1, h2, (ne_of_lt h2).symm]
        · have he : tolow c1 = tolow c2 := le_antisymm (not_lt.mp h2) (not_lt.mp h1)
          simp [h1, h2, he, ih]

/-- String form of `ciEq_iff`. -/
theorem ciEqStr_iff (a b : String) : ciEqStr a b = true ↔ lowerStr a = lowerStr b := by
  unfold ciEqStr ciLessStr lowerStr
  rw [ciEq_iff]
  constructor
  · intro h; exact congrArg String.mk h
  · intro h; injection h

/-! ### Registration order and serialization lemmas -/

theorem prefix_extend {a s : String} (h : ∃ t, s = a ++ t) (u : String) :
    ∃ t, s ++ u = a ++ t := by
  obtain ⟨t, rfl⟩ := h
  exact ⟨t ++ u, by rw [String.append_assoc]⟩

theorem xStage1_shape (n : String) (o : OptE) :
    ∃ t, xStage1 n o = "\nfeature option=\x22" ++ t := by
  unfold xStage1
  exact prefix_extend (prefix_extend ⟨n, rfl⟩ _) _

theorem xStage2_shape (n : String) (o : OptE) :
    ∃ t, xStage2 n o = "\nfeature option=\x22" ++ t := by
  unfold xStage2
  split
  · exact prefix_extend (prefix_extend (xStage1_shape n o) _) _
  · split
    · exact prefix_extend (prefix_extend (xStage1_shape n o) _) _
    · exact xStage1_shape n o

theorem xStage3_shape (n : String) (o : OptE) :
    ∃ t, xStage3 n o = "\nfeature option=\x22" ++ t := by
  unfold xStage3
  split
  · exact prefix_extend (xStage2_shape n o) _
  · exact xStage2_shape n o

theorem renderX_shape (n : String) (o : OptE) (r : String) (h : renderX n o = .ok r) :
    ∃ t, r = "\nfeature option=\x22" ++ t := by
  unfold renderX at h
  split at h
  · split at h
    · exact absurd h (by simp)
    · injection h with hr
      subst hr
      exact prefix_extend (prefix_extend (prefix_extend (prefix_extend (prefix_extend
        (prefix_extend (prefix_extend (xStage3_shape n o) _) _) _) _) _) _) _
  · injection h with hr
    subst hr
    exact prefix_extend (xStage3_shape n o) _

theorem uStage1_shape (n : String) (o : OptE) :
    ∃ t, uStage1 n o = "\noption name " ++ t := by
  unfold uStage1
  exact prefix_extend (prefix_extend ⟨n, rfl⟩ _) _

theorem uStage2_shape (n : String) (o : OptE) :
    ∃ t, uStage2 n o = "\noption name " ++ t := by
  unfold uStage2
  split
  · exact prefix_extend (prefix_extend (uStage1_shape n o) _) _
  · exact uStage1_shape n o

theorem uStage3_shape (n : String) (o : OptE) :
    ∃ t, uStage3 n o = "\noption name " ++ t := by
  unfold uStage3
  split
  · exact prefix_extend (uStage2_shape n o) _
  · exact uStage2_shape n o

theorem renderU_shape (n : String) (o : OptE) (r : String) (h : renderU n o = .ok r) :
    ∃ t, r = "\noption name " ++ t := by
  unfold renderU at h
  split at h
  · split at h
    · exact absurd h (by simp)
    · injection h with hr
      subst hr
      exact prefix_extend (prefix_extend (prefix_extend (prefix_extend (prefix_extend
        (prefix_extend (uStage3_shape n o) _) _) _) _) _) _
  · injection h with hr
    subst hr
    exact uStage3_shape n o

/-- Rendering ignores the registration index. -/
theorem renderEntry_idx (xb : Bool) (n : String) (o : OptE) (j : Nat) :
    renderEntry xb n { o with idx := j } = renderEntry xb n o := rfl

theorem enumIdx_length (c : Nat) (ds : List (String × OptE)) :
    (enumIdx c ds).length = ds.length := by
  induction ds generalizing c with
  | nil => rfl
  | cons p t ih =>
    cases p
    simp [enumIdx, ih]

theorem enumIdx_get (c : Nat) (ds : List (String × OptE)) (j : Nat) (hj : j < ds.length)
    (hj' : j < (enumIdx c ds).length) :
    (enumIdx c ds).get ⟨j, hj'⟩ =
      ((ds.get ⟨j, hj⟩).1, { (ds.get ⟨j, hj⟩).2 with idx := c + j }) := by
  induction ds generalizing c j with
  | nil => exact absurd hj (by simp)
  | cons p t ih =>
    cases p with
    | mk n o =>
      cases j with
      | zero => simp [enumIdx]
      | succ j' =>
        have hjt : j' < t.length := by simpa using hj
        have hjt' : j' < (enumIdx (c + 1) t).length := by
          rw [enumIdx_length]; exact hjt
        have := ih (c + 1) j' hjt hjt'
        simp only [enumIdx, List.get_cons_succ, List.length_cons] at *
        rw [this]
        have harith : c + 1 + j' = c + (j' + 1) := by omega
        rw [harith]

/-- Every member of `enumIdx c ds` is the `j`-th declaration stamped
with index `c + j`. -/
theorem enumIdx_mem (c : Nat) (ds : List (String × OptE)) (x : String × OptE)
    (hx : x ∈ enumIdx c ds) :
    ∃ j, ∃ hj : j < ds.length,
      x = ((ds.get ⟨j, hj⟩).1, { (ds.get ⟨j, hj⟩).2 with idx := c + j }) := by
  obtain ⟨⟨j, hj'⟩, hget⟩ := List.mem_iff_get.mp hx
  have hj : j < ds.length := by rw [enumIdx_length] at hj'; exact hj'
  exact ⟨j, hj, by rw [← hget, enumIdx_get c ds j hj hj']⟩

/-- Inserting a fresh key is, up to permutation, consing the new
entry. -/
theorem mapInsert_perm (entries : List (String × OptE)) (name : String) (o : OptE)
    (h : ∀ e ∈ entries, ciEqStr e.1 name = false) :
    (mapInsert entries name o).Perm ((name, o) :: entries) := by
  induction entries with
  | nil => exact List.Perm.refl _
  | cons p rest ih =>
    cases p with
    | mk n' o' =>
      unfold mapInsert
      by_cases h1 : ciLessStr name n' = true
      · rw [if_pos h1]
      · rw [if_neg h1]
        by_cases h2 : ciLessStr n' name = true
        · rw [if_pos h2]
          have hrest := ih (fun e he => h e (List.mem_cons_of_mem _ he))
          exact (hrest.cons (n', o')).trans (List.Perm.swap _ _ _)
        · exfalso
          have hh := h (n', o') (List.mem_cons_self _ _)
          rw [Bool.not_eq_true] at h1 h2
          unfold ciEqStr at hh
          rw [h1, h2] at hh
          simp at hh

/-- A run of declare calls with pairwise-fresh names appends, up to
permutation, the declarations stamped with consecutive counter values,
and advances the counter by their number. -/
theorem declareList_perm (ds : List (String × OptE)) (st : Registry)
    (hfresh : ∀ p ∈ ds, ∀ e ∈ st.entries, ciEqStr e.1 p.1 = false)
    (hpair : ds.Pairwise (fun p q => ciEqStr p.1 q.1 = false)) :
    (declareList st ds).entries.Perm (st.entries ++ enumIdx st.insert_order ds)
    ∧ (declareList st ds).insert_order = st.insert_order + ds.length := by
  induction ds generalizing st with
  | nil => simp [declareList, enumIdx]
  | cons p t ih =>
    cases p with
    | mk name o =>
      have hins : (declare st name o).entries.Perm
          ((name, { o with idx := st.insert_order }) :: st.entries) :=
        mapInsert_perm _ _ _ (fun e he => hfresh (name, o) (List.mem_cons_self _ _) e he)
      have hfresh' : ∀ q ∈ t, ∀ e ∈ (declare st name o).entries, ciEqStr e.1 q.1 = false := by
        intro q hq e he
        rcases List.mem_cons.mp (hins.mem_iff.mp he) with he1 | he2
        · rw [he1]
          exact (List.pairwise_cons.mp hpair).1 q hq
        · exact hfresh q (List.mem_cons_of_mem _ hq) e he2
      obtain ⟨hperm, hcount⟩ := ih (declare st name o) hfresh' (List.pairwise_cons.mp hpair).2
      have hstep : declareList st ((name, o) :: t) = declareList (declare st name o) t := rfl
      constructor
      · rw [hstep]
        refine hperm.trans ?_
        have h1 : ((declare st name o).entries ++ enumIdx (declare st name o).insert_order t).Perm
            ((name, { o with idx := st.insert_order }) :: st.entries ++
              enumIdx (st.insert_order + 1) t) :=
          hins.append_right _
        refine h1.trans ?_
        have h2 : (name, { o with idx := st.insert_order }) ::
            (st.entries ++ enumIdx (st.insert_order + 1) t) =
            ((name, { o with idx := st.insert_order }) :: st.entries) ++
              enumIdx (st.insert_order + 1) t := rfl
        rw [← h2]
        exact List.perm_middle.symm
      · rw [hstep, hcount]
        have : (declare st name o).insert_order = st.insert_order + 1 := rfl
        rw [this]
        simp [Nat.add_comm, Nat.add_assoc, Nat.add_left_comm]

/-- `find?` returns the unique satisfying element wherever it sits. -/
theorem find?_eq_some_of_unique {α : Type} (p : α → Bool) (l : List α) (a : α)
    (ha : a ∈ l) (hpa : p a = true) (huniq : ∀ x ∈ l, p x = true → x = a) :
    l.find? p = some a := by
  induction l with
  | nil => cases ha
  | cons b t ih =>
    by_cases hpb : p b = true
    · have hb : b = a := huniq b (List.mem_cons_self _ _) hpb
      rw [hb]
      exact List.find?_cons_of_pos _ (hb ▸ hpb)
    · rw [List.find?_cons_of_neg _ (by simpa using hpb)]
      have ha' : a ∈ t := by
        rcases List.mem_cons.mp ha with h | h
        · exact absurd (h ▸ hpa) hpb
        · exact h
      exact ih ha' (fun x hx hpx => huniq x (List.mem_cons_of_mem _ hx) hpx)

/-- Filtering by a weaker test does not change what `find?` finds. -/
theorem find?_filter_of_imp {α : Type} (l : List α) (p q : α → Bool)
    (h : ∀ x, p x = true → q x = true) :
    (l.filter q).find? p = l.find? p := by
  induction l with
  | nil => rfl
  | cons a t ih =>
    by_cases hq : q a = true
    · rw [List.filter_cons_of_pos hq]
      by_cases hp : p a = true
      · rw [List.find?_cons_of_pos _ hp, List.find?_cons_of_pos _ hp]
      · rw [List.find?_cons_of_neg _ (by simpa using hp),
            List.find?_cons_of_neg _ (by simpa using hp)]
        exact ih
    · have hp : p a = false := by
        cases hpa : p a with
        | false => rfl
        | true => exact absurd (h a hpa) hq
      rw [List.filter_cons_of_neg (by simpa using hq),
          List.find?_cons_of_neg _ (by simp [hp])]
      exact ih

/-- In a registry whose entries are a permutation of the stamped
declaration list, the serializer's inner scan at outer index `i` finds
exactly the `i`-th declaration — or nothing if that declaration is the
excluded `"Protocol"` entry. -/
theorem serial_find (ds : List (String × OptE)) (entries : List (String × OptE))
    (hperm : entries.Perm (enumIdx 0 ds)) (i : Nat) (hi : i < ds.length) :
    entries.find? (serPred i) =
      (if (ds.get ⟨i, hi⟩).1 = "Protocol" then none
       else some ((ds.get ⟨i, hi⟩).1, { (ds.get ⟨i, hi⟩).2 with idx := i })) := by
  have hi' : i < (enumIdx 0 ds).length := by rw [enumIdx_length]; exact hi
  have hmem : ((ds.get ⟨i, hi⟩).1, { (ds.get ⟨i, hi⟩).2 with idx := i }) ∈ entries := by
    rw [hperm.mem_iff]
    rw [List.mem_iff_get]
    refine ⟨⟨i, hi'⟩, ?_⟩
    rw [enumIdx_get 0 ds i hi hi']
    simp
  have huniq : ∀ x ∈ entries, serPred i x = true →
      x = ((ds.get ⟨i, hi⟩).1, { (ds.get ⟨i, hi⟩).2 with idx := i }) := by
    intro x hx hpx
    obtain ⟨j, hj, hxj⟩ := enumIdx_mem 0 ds x (hperm.mem_iff.mp hx)
    have hidx : x.2.idx = i := by
      have hpx2 : x.2.idx = i ∧ x.1 ≠ "Protocol" := by simpa [serPred] using hpx
      exact hpx2.1
    have hji : j = i := by
      rw [hxj] at hidx
      simpa using hidx
    subst hji
    rw [hxj]
    simp
  by_cases hpn : (ds.get ⟨i, hi⟩).1 = "Protocol"
  · rw [if_pos hpn]
    rw [List.find?_eq_none]
    intro x hx hpx
    have hxa := huniq x hx hpx
    rw [hxa] at hpx
    unfold serPred at hpx
    rw [hpn] at hpx
    simp at hpx
  · rw [if_neg hpn]
    refine find?_eq_some_of_unique _ _ _ hmem ?_ huniq
    unfold serPred
    simp [-List.get_eq_getElem, hpn]

/-! ### Claim theorems -/

/-- C1: for every option, `Assign(newValue)` is a silent no-op exactly
when the value is invalid for the option's kind — nonempty required
unless Button, `"true"/"false"` for Check, exact case-sensitive
membership for Combo, parsed number within `[min, max]` for Spin; on
the no-op path `currentValue` is unchanged, the hook is not invoked and
no error reaches the caller (`.ok`).  The hypothesis restricts to
assigns on which `stof` returns (its throwing path is claim C8); the
second conjunct's right disjunct records the one observational overlap:
an accepted assign whose result happens to coincide with the unchanged
hookless state. -/
theorem C1_assign_silent_noop_iff_invalid (o : OptE) (v : String) (h : spinParseOk o v) :
    (rejectCond o v = true ↔
      ((o.type ≠ "button" ∧ v = "") ∨
       (o.type = "check" ∧ v ≠ "true" ∧ v ≠ "false") ∨
       (o.type = "combo" ∧ v ∉ o.comboValues) ∨
       (o.type = "spin" ∧ ∃ x, stofM v = some x ∧
          (stofLtInt x o.min = true ∨ intLtStof o.max x = true))))
    ∧ (assign o v = .ok { opt := o, hookCalls := [] } ↔
        (rejectCond o v = true ∨ acceptResult o v = { opt := o, hookCalls := [] })) := by
  constructor
  · unfold rejectCond spinOut
    cases hst : stofM v <;> simp [hst] <;> tauto
  · rw [assign_eq o v h]
    cases hr : rejectCond o v <;> simp [hr]

/-- C2: every validated assign to a non-Button option overwrites
`currentValue` and then invokes the hook (when present) with the state
after the overwrite; for Button nothing is stored and the hook receives
the current state; the final state is returned. -/
theorem C2_accept_overwrites_then_fires_hook (o : OptE) (v : String)
    (hr : rejectCond o v = false) (h : spinParseOk o v) :
    assign o v = .ok (acceptResult o v)
    ∧ (o.type ≠ "button" → (acceptResult o v).opt = { o with currentValue := v })
    ∧ (o.type = "button" → (acceptResult o v).opt = o)
    ∧ (o.on_change = true → (acceptResult o v).hookCalls = [(acceptResult o v).opt])
    ∧ (o.on_change = false → (acceptResult o v).hookCalls = []) := by
  refine ⟨?_, ?_, ?_, ?_, ?_⟩
  · rw [assign_eq o v h, hr]; rfl
  · intro hb; simp [acceptResult, acceptState, hb]
  · intro hb; simp [acceptResult, acceptState, hb]
  · intro hc; simp [acceptResult, hc]
  · intro hc; simp [acceptResult, hc]

/-- C3: for every Combo option, a value outside the allowed list is
rejected by the exact case-sensitive membership test even when it is
case-insensitively equal to the current value, while
`Option::operator==` compares case-insensitively (it equals equality of
case-folded spellings).  Instantiated in the witness on the
`{"Both","Off","White","Black"}` option with the literal `"both"`. -/
theorem C3_combo_assign_exact_vs_ci_equality (o : OptE) (s : String)
    (ho : o.type = "combo") (hm : s ∉ o.comboValues) :
    assign o s = .ok { opt := o, hookCalls := [] }
    ∧ (opEq o s = true ↔ lowerStr o.currentValue = lowerStr s) := by
  have hsp : spinParseOk o s := by
    intro hspin; rw [ho] at hspin; exact absurd hspin (by decide)
  constructor
  · have hrc : rejectCond o s = true := by unfold rejectCond; simp [ho, hm]
    rw [assign_eq o s hsp, hrc]
    rfl
  · exact ciEqStr_iff o.currentValue s

/-- C7: assigning any value (the empty string included) to a Button
option is never rejected by the empty-value check, stores nothing, and
invokes the hook exactly once with the unchanged state. -/
theorem C7_button_assign_fires_hook_once (o : OptE) (v : String)
    (hb : o.type = "button") (hf : o.on_change = true) :
    assign o v = .ok { opt := o, hookCalls := [o] } := by
  have hsp : spinParseOk o v := by
    intro hspin; rw [hb] at hspin; exact absurd hspin (by decide)
  have hrc : rejectCond o v = false := by unfold rejectCond spinOut; simp [hb]
  rw [assign_eq o v hsp, hrc]
  simp [acceptResult, acceptState, hb, hf]

/-- C9: a validated assign of a value equal to the current one still
invokes the hook: the hook fires on every accepted assign, so a hook
invocation does not imply the stored value changed. -/
theorem C9_hook_fires_on_unchanged_value (o : OptE) (v : String)
    (_hb : o.type ≠ "button") (hr : rejectCond o v = false) (hsp : spinParseOk o v)
    (he : v = o.currentValue) (hc : o.on_change = true) :
    assign o v = .ok { opt := o, hookCalls := [o] } := by
  rw [assign_eq o v hsp, hr]
  have hst : acceptState o v = o := by
    subst he
    unfold acceptState
    split <;> rfl
  simp [acceptResult, hst, hc]

/-- C10: `Assign("")` on a String option is silently rejected, yet the
String option `"Debug Log File"` of `init()` starts with the empty
string as default and current value; and once a String option holds a
nonempty value, no successful assign can ever return it to empty. -/
theorem C10_string_cannot_return_to_empty :
    (∀ o : OptE, o.type = "string" → assign o "" = .ok { opt := o, hookCalls := [] })
    ∧ (∃ d, lookupCI initRegistry "Debug Log File" = some d ∧ d.type = "string" ∧
        d.defaultValue = "" ∧ d.currentValue = "")
    ∧ (∀ (o : OptE) (v : String) (r : AssignResult), o.type = "string" →
        o.currentValue ≠ "" → assign o v = .ok r → r.opt.currentValue ≠ "") := by
  refine ⟨?_, ?_, ?_⟩
  · intro o ho
    have hsp : spinParseOk o "" := by
      intro hspin; rw [ho] at hspin; exact absurd hspin (by decide)
    have hrc : rejectCond o "" = true := by unfold rejectCond; simp [ho]
    rw [assign_eq o "" hsp, hrc]
    rfl
  · exact ⟨{ mkStringOpt "" true with idx := 1 }, by decide, by decide, by decide, by decide⟩
  · intro o v r ho hne hr
    have hsp : spinParseOk o v := by
      intro hspin; rw [ho] at hspin; exact absurd hspin (by decide)
    rw [assign_eq o v hsp] at hr
    cases hrc : rejectCond o v with
    | true =>
      rw [hrc] at hr
      simp only [if_true, Except.ok.injEq] at hr
      rw [← hr]
      exact hne
    | false =>
      rw [hrc] at hr
      simp only [Bool.false_eq_true, if_false, Except.ok.injEq] at hr
      have hv : v ≠ "" := by
        intro hv
        rw [hv] at hrc
        have hrt : rejectCond o "" = true := by unfold rejectCond; simp [ho]
        rw [hrt] at hrc
        exact Bool.noConfusion hrc
      rw [← hr]
      have hbt : o.type ≠ "button" := by rw [ho]; decide
      simp [acceptResult, acceptState, hbt]
      exact hv

/-- C8 counterexample: the claim's universal "text not parseable as a
number does not take the silent no-op path / aborts" fails at explicit
inputs.  The empty string has no numeric parse, yet on a `[1,512]`
spin it takes the silent no-op path (the empty-value check fires
before `stof` is reached).  Conversely `"inf"` and `"nan"` are not
numbers but `std::stof` parses them without throwing: `"inf"` is
silently rejected by the range check (∞ > max) and `"nan"` is
accepted and stored (every NaN comparison is false), so neither
aborts. -/
theorem C8_counterexample_empty_unparseable_is_noop :
    stofM "" = none
    ∧ assign (mkSpinOpt 1 1 512 true) "" =
        .ok { opt := mkSpinOpt 1 1 512 true, hookCalls := [] }
    ∧ stofM "inf" = some .posInf
    ∧ assign (mkSpinOpt 1 1 512 true) "inf" =
        .ok { opt := mkSpinOpt 1 1 512 true, hookCalls := [] }
    ∧ stofM "nan" = some .nan
    ∧ assign (mkSpinOpt 1 1 512 true) "nan" =
        .ok { opt := { mkSpinOpt 1 1 512 true with currentValue := "nan" },
              hookCalls := [{ mkSpinOpt 1 1 512 true with currentValue := "nan" }] } :=
  ⟨by decide, by decide, by decide, by decide, by decide, by decide⟩

/-- C8 (amended): for a Spin option, assigning NONEMPTY text on which
`std::stof` throws — text with no numeric prefix
(`std::invalid_argument`) or whose value overflows or underflows the
`float` range (`std::out_of_range`) — does not take the silent no-op
path: `stof` is reached before any parseability validation and the
uncaught exception aborts (`.error ()`) instead of leaving
`currentValue` unchanged. -/
theorem C8_spin_nonempty_unparseable_aborts (o : OptE) (v : String)
    (ho : o.type = "spin") (hv : v ≠ "") (hp : stofM v = none) :
    assign o v = .error () := by
  have hc : assignCond o v = .error () := by unfold assignCond; simp [ho, hv, hp]
  unfold assign
  rw [hc]
  rfl

/-- C6 counterexample: in the registry built by `init()`, the option
`"Threads"` is not declared second — its registration index is 4, not
1 (it is preceded by Protocol, Debug Log File, Contempt and Analysis
Contempt). -/
theorem C6_counterexample_threads_index :
    (lookupCI initRegistry "Threads").map OptE.idx = some 4
    ∧ (lookupCI initRegistry "Threads").map OptE.idx ≠ some 1 :=
  ⟨by decide, by decide⟩

/-- C6 (amended): a Spin default is stored as floating-point-derived
text (`"1.000000"` for Threads) and printed as its truncated-toward-
zero integer — truncation, not rounding, as the `"1.900000"` instance
shows — and in the `init()` registry the Spin option `"Threads"`
(default 1, bounds [1,512], declared fifth overall, index 4) renders in
the primary grammar as exactly
`"\noption name Threads type spin default 1 min 1 max 512"`. -/
theorem C6_threads_line_truncated_default :
    lookupCI initRegistry "Threads" = some { mkSpinOpt 1 1 512 true with idx := 4 }
    ∧ (mkSpinOpt 1 1 512 true).defaultValue = "1.000000"
    ∧ emitAt (isXboard initRegistry) initRegistry.entries 4 =
        .ok "\noption name Threads type spin default 1 min 1 max 512"
    ∧ renderU "X" { mkSpinOpt 1 1 512 true with defaultValue := "1.900000" } =
        .ok "\noption name X type spin default 1 min 1 max 512"
    ∧ renderU "X" { mkSpinOpt 1 1 512 true with defaultValue := "-1.900000", min := -5 } =
        .ok "\noption name X type spin default -1 min -5 max 512" :=
  ⟨by decide, by decide, by decide, by decide, by decide⟩

/-- C4: for every sequence of declare calls (with fresh names, the only
defined use), the counter advances once per declare, the `j`-th
declared option carries registration index `j` — indices are unique and
strictly increasing in declaration order — and the serializer's output
equals the declaration-order rendering `printDeclOrder`, regardless of
the map's case-insensitive alphabetic order. -/
theorem C4_registration_indices_and_serialization_order (ds : List (String × OptE))
    (hpair : ds.Pairwise (fun p q => ciEqStr p.1 q.1 = false)) :
    (declareList {} ds).insert_order = ds.length
    ∧ (∀ j (hj : j < ds.length),
        ((ds.get ⟨j, hj⟩).1, { (ds.get ⟨j, hj⟩).2 with idx := j }) ∈ (declareList {} ds).entries)
    ∧ printOptionsE (declareList {} ds) =
        printDeclOrder (isXboard (declareList {} ds)) ds := by
  obtain ⟨hperm0, hcount⟩ :=
    declareList_perm ds {} (fun p _ e he => absurd he (List.not_mem_nil e)) hpair
  have hperm : (declareList {} ds).entries.Perm (enumIdx 0 ds) := by
    simpa using hperm0
  have hlen : (declareList {} ds).entries.length = ds.length := by
    rw [hperm.length_eq, enumIdx_length]
  refine ⟨by simpa using hcount, ?_, ?_⟩
  · intro j hj
    rw [hperm.mem_iff, List.mem_iff_get]
    have hj' : j < (enumIdx 0 ds).length := by rw [enumIdx_length]; exact hj
    exact ⟨⟨j, hj'⟩, by rw [enumIdx_get 0 ds j hj hj']; simp⟩
  · unfold printOptionsE printDeclOrder
    congr 1
    rw [hlen]
    apply List.ext_getElem
    · simp
    · intro i h1 h2
      have hi : i < ds.length := by simpa using h1
      simp only [List.getElem_map, List.getElem_range]
      unfold emitAt
      rw [serial_find ds _ hperm i hi]
      by_cases hpn : (ds.get ⟨i, hi⟩).1 = "Protocol"
      · rw [if_pos hpn]
        show Except.ok "" = if (ds.get ⟨i, hi⟩).1 = "Protocol" then Except.ok ""
          else renderEntry (isXboard (declareList {} ds)) (ds.get ⟨i, hi⟩).1 (ds.get ⟨i, hi⟩).2
        rw [if_pos hpn]
      · rw [if_neg hpn]
        show _ = if (ds.get ⟨i, hi⟩).1 = "Protocol" then Except.ok ""
          else renderEntry (isXboard (declareList {} ds)) (ds.get ⟨i, hi⟩).1 (ds.get ⟨i, hi⟩).2
        rw [if_neg hpn]
        exact renderEntry_idx (isXboard (declareList {} ds)) _ _ i

/-- C4 witness: two options declared in reverse-alphabetical order
print in declaration order, not map order. -/
theorem C4_witness :
    printOptionsE (declareList {}
        [("Zeta", mkCheckOpt false false), ("Alpha", mkCheckOpt true false)]) =
      .ok "\noption name Zeta type check default false\noption name Alpha type check default true" := by
  have h := C4_registration_indices_and_serialization_order
    [("Zeta", mkCheckOpt false false), ("Alpha", mkCheckOpt true false)] (by decide)
  exact h.2.2.trans (by decide)

/-- C5: the serializer emits the alternate grammar exactly when the
current value of the `"Protocol"` option is case-insensitively equal to
`"xboard"` (first conjunct characterizes the switch, second and third
give every nonempty emitted entry the corresponding grammar's leading
token), and in both grammars the `"Protocol"` entry contributes
nothing: every emission is unchanged when the Protocol entries are
removed from the map. -/
theorem C5_grammar_switch_and_protocol_exclusion (st : Registry) (po : OptE)
    (hp : lookupCI st "Protocol" = some po) :
    (isXboard st = true ↔ lowerStr po.currentValue = lowerStr "xboard")
    ∧ (isXboard st = true → ∀ i r, emitAt (isXboard st) st.entries i = .ok r → r ≠ "" →
        ∃ t, r = "\nfeature option=\x22" ++ t)
    ∧ (isXboard st = false → ∀ i r, emitAt (isXboard st) st.entries i = .ok r → r ≠ "" →
        ∃ t, r = "\noption name " ++ t)
    ∧ (∀ (xb : Bool) (i : Nat), emitAt xb st.entries i =
        emitAt xb (st.entries.filter (fun e => e.1 != "Protocol")) i) := by
  refine ⟨?_, ?_, ?_, ?_⟩
  · unfold lookupCI at hp
    cases hfind : st.entries.find? (fun e => ciEqStr e.1 "Protocol") with
    | none => rw [hfind] at hp; exact absurd hp (by simp)
    | some e =>
      rw [hfind] at hp
      have hpo : e.2 = po := by injection hp
      unfold isXboard
      rw [hfind]
      show opEq e.2 "xboard" = true ↔ lowerStr po.currentValue = lowerStr "xboard"
      rw [hpo]
      exact ciEqStr_iff po.currentValue "xboard"
  · intro hxb i r hre hne
    unfold emitAt at hre
    cases hfind : st.entries.find? (serPred i) with
    | none =>
      rw [hfind] at hre
      injection hre with hre
      exact absurd hre.symm hne
    | some e =>
      rw [hfind] at hre
      rw [hxb] at hre
      exact renderX_shape e.1 e.2 r (by simpa [renderEntry] using hre)
  · intro hxb i r hre hne
    unfold emitAt at hre
    cases hfind : st.entries.find? (serPred i) with
    | none =>
      rw [hfind] at hre
      injection hre with hre
      exact absurd hre.symm hne
    | some e =>
      rw [hfind] at hre
      rw [hxb] at hre
      exact renderU_shape e.1 e.2 r (by simpa [renderEntry] using hre)
  · intro xb i
    unfold emitAt
    rw [find?_filter_of_imp st.entries (serPred i) (fun e => e.1 != "Protocol")
      (fun x hx => by
        have hx2 : x.2.idx = i ∧ x.1 ≠ "Protocol" := by simpa [serPred] using hx
        simpa using hx2.2)]

/-- C5 witness: a registry whose Protocol value is `"uci"` takes the
primary grammar, and its check-option entry renders with the primary
grammar's leading token. -/
theorem C5_witness :
    (isXboard (declareList {}
        [("Protocol", mkComboOpt "uci" ["uci", "xboard"] false),
         ("Ponder", mkCheckOpt false false)]) = true ↔
      lowerStr ({ mkComboOpt "uci" ["uci", "xboard"] false with idx := 0 } : OptE).currentValue =
        lowerStr "xboard")
    ∧ (∃ t, "\noption name Ponder type check default false" = "\noption name " ++ t) := by
  have h := C5_grammar_switch_and_protocol_exclusion
    (declareList {}
      [("Protocol", mkComboOpt "uci" ["uci", "xboard"] false),
       ("Ponder", mkCheckOpt false false)])
    { mkComboOpt "uci" ["uci", "xboard"] false with idx := 0 } (by decide)
  exact ⟨h.1, h.2.2.1 (by decide) 1 _ (by decide) (by decide)⟩

/-- C1 witness: on a `[1,512]` spin option, `"513"` is out of range and
its assign is the silent unchanged-state no-op; so is `"1e3"`, whose
exponent form `std::stof` reads as 1000 > 512. -/
theorem C1_witness :
    rejectCond (mkSpinOpt 1 1 512 true) "513" = true
    ∧ assign (mkSpinOpt 1 1 512 true) "513" =
        .ok { opt := mkSpinOpt 1 1 512 true, hookCalls := [] }
    ∧ rejectCond (mkSpinOpt 1 1 512 true) "1e3" = true
    ∧ assign (mkSpinOpt 1 1 512 true) "1e3" =
        .ok { opt := mkSpinOpt 1 1 512 true, hookCalls := [] } :=
  ⟨by decide,
   ((C1_assign_silent_noop_iff_invalid (mkSpinOpt 1 1 512 true) "513"
       (by intro hsp hv; decide)).2).mpr
     (Or.inl (by decide)),
   by decide,
   ((C1_assign_silent_noop_iff_invalid (mkSpinOpt 1 1 512 true) "1e3"
       (by intro hsp hv; decide)).2).mpr
     (Or.inl (by decide))⟩

/-- C2 witness: assigning `"4"` to the `[1,512]` spin option stores the
value and fires the hook once with the stored state; the same holds for
`"0x10"` (hex, `stof` reads 16), `"512.0000001"` (rounds to the float
512.0, inside the bounds) and `"nan"` (every NaN comparison is false,
so the range check passes). -/
theorem C2_witness :
    assign (mkSpinOpt 1 1 512 true) "4" = .ok (acceptResult (mkSpinOpt 1 1 512 true) "4")
    ∧ (acceptResult (mkSpinOpt 1 1 512 true) "4").opt =
        { mkSpinOpt 1 1 512 true with currentValue := "4" }
    ∧ (acceptResult (mkSpinOpt 1 1 512 true) "4").hookCalls =
        [(acceptResult (mkSpinOpt 1 1 512 true) "4").opt]
    ∧ assign (mkSpinOpt 1 1 512 true) "0x10" =
        .ok (acceptResult (mkSpinOpt 1 1 512 true) "0x10")
    ∧ assign (mkSpinOpt 1 1 512 true) "512.0000001" =
        .ok (acceptResult (mkSpinOpt 1 1 512 true) "512.0000001")
    ∧ assign (mkSpinOpt 1 1 512 true) "nan" =
        .ok (acceptResult (mkSpinOpt 1 1 512 true) "nan") := by
  have h := C2_accept_overwrites_then_fires_hook (mkSpinOpt 1 1 512 true) "4"
    (by decide) (by intro hsp hv; decide)
  have h2 := C2_accept_overwrites_then_fires_hook (mkSpinOpt 1 1 512 true) "0x10"
    (by decide) (by intro hsp hv; decide)
  have h3 := C2_accept_overwrites_then_fires_hook (mkSpinOpt 1 1 512 true) "512.0000001"
    (by decide) (by intro hsp hv; decide)
  have h4 := C2_accept_overwrites_then_fires_hook (mkSpinOpt 1 1 512 true) "nan"
    (by decide) (by intro hsp hv; decide)
  exact ⟨h.1, h.2.1 (by decide), h.2.2.2.1 rfl, h2.1, h3.1, h4.1⟩

/-- C3 witness: the Analysis Contempt combo rejects `"both"` while its
equality-against-literal accepts it. -/
theorem C3_witness :
    assign (mkComboOpt "Both" ["Both", "Off", "White", "Black"] false) "both" =
      .ok { opt := mkComboOpt "Both" ["Both", "Off", "White", "Black"] false, hookCalls := [] }
    ∧ opEq (mkComboOpt "Both" ["Both", "Off", "White", "Black"] false) "both" = true := by
  have h := C3_combo_assign_exact_vs_ci_equality
    (mkComboOpt "Both" ["Both", "Off", "White", "Black"] false) "both" rfl (by decide)
  exact ⟨h.1, h.2.mpr (by decide)⟩

/-- C7 witness: a button assign with the empty string fires its hook
exactly once. -/
theorem C7_witness :
    assign (mkButtonOpt true) "" = .ok { opt := mkButtonOpt true, hookCalls := [mkButtonOpt true] } :=
  C7_button_assign_fires_hook_once (mkButtonOpt true) "" rfl rfl

/-- C9 witness: re-assigning the current combo value still fires the
hook (with the unchanged state); likewise for a `[1,512]` spin holding
`"0x10"` (a state reachable because `stof` reads it as 16 and the
program accepts it): re-assigning `"0x10"` fires the hook again. -/
theorem C9_witness :
    assign (mkComboOpt "Both" ["Both", "Off", "White", "Black"] true) "Both" =
      .ok { opt := mkComboOpt "Both" ["Both", "Off", "White", "Black"] true,
            hookCalls := [mkComboOpt "Both" ["Both", "Off", "White", "Black"] true] }
    ∧ assign { mkSpinOpt 1 1 512 true with currentValue := "0x10" } "0x10" =
      .ok { opt := { mkSpinOpt 1 1 512 true with currentValue := "0x10" },
            hookCalls := [{ mkSpinOpt 1 1 512 true with currentValue := "0x10" }] } :=
  ⟨C9_hook_fires_on_unchanged_value (mkComboOpt "Both" ["Both", "Off", "White", "Black"] true)
    "Both" (by decide) (by decide) (by intro hsp; exact absurd hsp (by decide)) rfl rfl,
   C9_hook_fires_on_unchanged_value { mkSpinOpt 1 1 512 true with currentValue := "0x10" }
    "0x10" (by decide) (by decide) (by intro hsp hv; decide) rfl rfl⟩

/-- C10 witness: the empty assign on a concrete string option is a
no-op, and an accepted assign keeps the value nonempty. -/
theorem C10_witness :
    assign (mkStringOpt "abc" false) "" = .ok { opt := mkStringOpt "abc" false, hookCalls := [] }
    ∧ ({ opt := { mkStringOpt "abc" false with currentValue := "x" },
         hookCalls := [] } : AssignResult).opt.currentValue ≠ "" := by
  have h := C10_string_cannot_return_to_empty
  exact ⟨h.1 (mkStringOpt "abc" false) rfl,
         h.2.2 (mkStringOpt "abc" false) "x" _ rfl (by decide) (by decide)⟩

set_option maxRecDepth 40000 in
/-- C8 witness (amended claim): `"abc"` (no numeric prefix,
`std::invalid_argument`) and `"1e39"` (above the largest finite
`float`, about 3.4e38, so `std::out_of_range`) both abort a spin
assign. -/
theorem C8_witness :
    assign (mkSpinOpt 1 1 512 true) "abc" = .error ()
    ∧ assign (mkSpinOpt 1 1 512 true) "1e39" = .error () :=
  ⟨C8_spin_nonempty_unparseable_aborts (mkSpinOpt 1 1 512 true) "abc" rfl
     (by decide) (by decide),
   C8_spin_nonempty_unparseable_aborts (mkSpinOpt 1 1 512 true) "1e39" rfl
     (by decide) (by decide)⟩
